import Mathlib

/-!
# Verification of the cdown contract-source downloader

A shallow embedding of `main.py`: the bundle parser that normalises the
explorer API's `SourceCode` payloads, the metadata filter, the source
writer, and the recursive proxy-following downloader.  Python strings are
lists of characters, `json.loads` is modelled by an executable recursive
descent parser, the filesystem and network are modelled by explicit event
traces and a finite fetch environment.
-/

/-- Python strings are modelled as lists of characters. -/
abbrev Str := List Char

/-- Whitespace stripped by Python `str.strip` / `lstrip` / `rstrip`
(the ASCII subset of Python's Unicode whitespace). -/
def isPyWs (c : Char) : Bool :=
  c == ' ' || c == '\t' || c == '\n' || c == '\r' || c == '\x0b' || c == '\x0c'

/-- Model of `str.lstrip()`. -/
def pyLstrip (l : Str) : Str := l.dropWhile isPyWs

/-- Model of `str.rstrip()`. -/
def pyRstrip (l : Str) : Str := (l.reverse.dropWhile isPyWs).reverse

/-- Model of `str.strip()`. -/
def pyStrip (l : Str) : Str := pyRstrip (pyLstrip l)

/-- Model of `str.lower()` (ASCII case folding, which covers hex
addresses). -/
def pyLower (l : Str) : Str := l.map Char.toLower

/-- The Python slice `txt[1:-1]`: drop the first and the last character
(empty result on strings of length at most one, as in Python). -/
def dropEdges (l : Str) : Str := (l.drop 1).dropLast

/-- `pathlib` path joining `a / b`. -/
def pathJoin (a b : Str) : Str := a ++ ('/' :: b)

/-- Decoded JSON values as produced by `json.loads`.  A number keeps its
source lexeme: no claim in this development inspects numeric magnitude,
only Python truthiness, which the lexeme determines. -/
inductive Json where
  | null
  | bool (b : Bool)
  | num (lexeme : Str)
  | str (s : Str)
  | arr (elems : List Json)
  | obj (members : List (Str × Json))
deriving Repr

/-- Python truthiness `bool(x)` of a decoded JSON value.  A number is
falsy exactly when its value is zero, i.e. when every mantissa digit
(before any exponent marker) is `0`. -/
def Json.truthy : Json → Bool
  | .null => false
  | .bool b => b
  | .num lex =>
      !(((lex.takeWhile fun c => !(c == 'e' || c == 'E')).filter Char.isDigit).all
        fun c => c == '0')
  | .str s => !s.isEmpty
  | .arr xs => !xs.isEmpty
  | .obj kvs => !kvs.isEmpty

/-- Python dict insertion with string keys: overwrite in place when the
key exists (keeping its original position), else append. -/
def dictInsertS (d : List (Str × Json)) (k : Str) (v : Json) : List (Str × Json) :=
  match d with
  | [] => [(k, v)]
  | (k', v') :: rest =>
      if k' = k then (k', v) :: rest else (k', v') :: dictInsertS rest k v

/-- JSON whitespace (what `json.loads` skips between tokens). -/
def isJWs (c : Char) : Bool := c == ' ' || c == '\t' || c == '\n' || c == '\r'

/-- Skip JSON whitespace. -/
def skipJWs : Str → Str
  | [] => []
  | c :: cs => if isJWs c then skipJWs cs else c :: cs

/-- Value of one hexadecimal digit. -/
def hexVal (c : Char) : Option Nat :=
  if '0' ≤ c ∧ c ≤ '9' then some (c.toNat - '0'.toNat)
  else if 'a' ≤ c ∧ c ≤ 'f' then some (c.toNat - 'a'.toNat + 10)
  else if 'A' ≤ c ∧ c ≤ 'F' then some (c.toNat - 'A'.toNat + 10)
  else none

/-- The character named by a one-character JSON escape. -/
def escChar (e : Char) : Option Char :=
  if e == '"' then some '"'
  else if e == '\\' then some '\\'
  else if e == '/' then some '/'
  else if e == 'b' then some '\x08'
  else if e == 'f' then some '\x0c'
  else if e == 'n' then some '\n'
  else if e == 'r' then some '\r'
  else if e == 't' then some '\t'
  else none

/-- Parse a JSON string body (the opening quote already consumed);
returns the decoded characters and the rest of the input.  `\uXXXX`
escapes become the scalar value (surrogate pairs are not recombined in
this model); unescaped control characters are rejected as in strict
`json.loads`. -/
def parseJStr : Nat → Str → Option (Str × Str)
  | 0, _ => none
  | _ + 1, [] => none
  | fuel + 1, c :: cs =>
    if c == '"' then some ([], cs)
    else if c == '\\' then
      match cs with
      | [] => none
      | e :: cs' =>
        if e == 'u' then
          match cs' with
          | h1 :: h2 :: h3 :: h4 :: cs'' =>
            match hexVal h1, hexVal h2, hexVal h3, hexVal h4 with
            | some a, some b, some c3, some d =>
                (parseJStr fuel cs'').map fun p =>
                  (Char.ofNat (((a * 16 + b) * 16 + c3) * 16 + d) :: p.1, p.2)
            | _, _, _, _ => none
          | _ => none
        else
          match escChar e with
          | some ch => (parseJStr fuel cs').map fun p => (ch :: p.1, p.2)
          | none => none
    else if c.toNat < 32 then none
    else (parseJStr fuel cs).map fun p => (c :: p.1, p.2)

/-- One or more decimal digits. -/
def digits1 (l : Str) : Option (Str × Str) :=
  let ds := l.takeWhile Char.isDigit
  if ds.isEmpty then none else some (ds, l.drop ds.length)

/-- The integer part of a JSON number (`0`, or digits without a leading
zero). -/
def parseIntPart (l : Str) : Option (Str × Str) :=
  match l with
  | '0' :: rest => some (['0'], rest)
  | _ => digits1 l

/-- The optional fractional part of a JSON number. -/
def parseFrac (l : Str) : Option (Str × Str) :=
  match l with
  | '.' :: rest =>
    match digits1 rest with
    | some (ds, r) => some ('.' :: ds, r)
    | none => none
  | _ => some ([], l)

/-- The optional exponent part of a JSON number. -/
def parseExp (l : Str) : Option (Str × Str) :=
  match l with
  | c :: rest =>
    if c == 'e' || c == 'E' then
      let (sgn, r1) :=
        match rest with
        | '+' :: r => ((['+'] : Str), r)
        | '-' :: r => ((['-'] : Str), r)
        | _ => (([] : Str), rest)
      match digits1 r1 with
      | some (ds, r2) => some (c :: (sgn ++ ds), r2)
      | none => none
    else some ([], l)
  | [] => some ([], l)

/-- Lex a JSON number, returning its lexeme and the rest of the input. -/
def parseNum (l : Str) : Option (Str × Str) :=
  let (sign, l1) :=
    match l with
    | '-' :: rest => ((['-'] : Str), rest)
    | _ => (([] : Str), l)
  match parseIntPart l1 with
  | none => none
  | some (ip, r1) =>
    match parseFrac r1 with
    | none => none
    | some (fp, r2) =>
      match parseExp r2 with
      | none => none
      | some (ep, r3) => some (sign ++ ip ++ fp ++ ep, r3)

mutual

/-- Parse one JSON value; the input must start at a non-space character.
Every recursive call consumes input, so fuel `length + 1` (as supplied by
`json_loads`) never runs out on inputs the grammar accepts. -/
def parseValue : Nat → Str → Option (Json × Str)
  | 0, _ => none
  | fuel + 1, input =>
    match input with
    | [] => none
    | c :: rest =>
      if c == 't' then
        if "rue".data.isPrefixOf rest then some (.bool true, rest.drop 3) else none
      else if c == 'f' then
        if "alse".data.isPrefixOf rest then some (.bool false, rest.drop 4) else none
      else if c == 'n' then
        if "ull".data.isPrefixOf rest then some (.null, rest.drop 3) else none
      else if c == '"' then
        (parseJStr (rest.length + 1) rest).map fun p => (.str p.1, p.2)
      else if c == '\x7b' then
        match skipJWs rest with
        | [] => none
        | d :: r2 =>
          if d == '\x7d' then some (.obj [], r2)
          else parseObjMems fuel (d :: r2) []
      else if c == '[' then
        match skipJWs rest with
        | [] => none
        | d :: r2 =>
          if d == ']' then some (.arr [], r2)
          else parseArrElems fuel (d :: r2) []
      else (parseNum (c :: rest)).map fun p => (.num p.1, p.2)

/-- Parse the members of a JSON object, positioned at a key. -/
def parseObjMems : Nat → Str → List (Str × Json) → Option (Json × Str)
  | 0, _, _ => none
  | fuel + 1, input, acc =>
    match input with
    | '"' :: cs =>
      match parseJStr (cs.length + 1) cs with
      | none => none
      | some (key, r1) =>
        match skipJWs r1 with
        | ':' :: r2 =>
          match parseValue fuel (skipJWs r2) with
          | none => none
          | some (v, r3) =>
            match skipJWs r3 with
            | ',' :: r4 => parseObjMems fuel (skipJWs r4) (dictInsertS acc key v)
            | '\x7d' :: r4 => some (.obj (dictInsertS acc key v), r4)
            | _ => none
        | _ => none
    | _ => none

/-- Parse the elements of a JSON array, positioned at a value. -/
def parseArrElems : Nat → Str → List Json → Option (Json × Str)
  | 0, _, _ => none
  | fuel + 1, input, acc =>
    match parseValue fuel input with
    | none => none
    | some (v, r) =>
      match skipJWs r with
      | ',' :: r2 => parseArrElems fuel (skipJWs r2) (acc ++ [v])
      | ']' :: r2 => some (.arr (acc ++ [v]), r2)
      | _ => none

end

/-- Model of Python `json.loads`: decode exactly one JSON document with
surrounding whitespace allowed; anything else is a decode failure
(`None` here standing for the `JSONDecodeError` path of
`_json_or_none`). -/
def json_loads (s : Str) : Option Json :=
  match parseValue (s.length + 1) (skipJWs s) with
  | some (v, rest) => if (skipJWs rest).isEmpty then some v else none
  | none => none

/-- The error taxonomy of the bundle parser and source writer: the
`RuntimeError` raise sites of `main.py`, named after the specification's
taxonomy, plus `pyError` for uncaught Python-level exceptions reachable
only through degenerate bundle shapes (non-pair list items, dict values
without a `content` key in the list branch, unhashable or non-string
file names). -/
inductive WriteErr where
  | noSource
  | bundleDecode
  | bundleShape
  | pyError
deriving DecidableEq, Repr

/-- The explorer's per-contract record (`RawResult`): string keys to
string values in insertion order, a Python dict. -/
abbrev RawResult := List (Str × Str)

/-- First-match association-list lookup: Python `dict.get(k)`. -/
def pyLookup (m : List (Str × α)) (k : Str) : Option α :=
  match m with
  | [] => none
  | (k', v) :: rest => if k' = k then some v else pyLookup rest k

/-- Python `dict.get(k, default)`. -/
def pyGetD (m : List (Str × α)) (k : Str) (d : α) : α := (pyLookup m k).getD d

/-- Python `x or default` on an optional string: `None` and `""` both
fall through to the default. -/
def pyOrS (x : Option Str) (d : Str) : Str :=
  match x with
  | some s => if s = [] then d else s
  | none => d

/-- `main.py` `is_single_file_contract`. -/
def is_single_file_contract (src : Str) : Bool :=
  let txt := pyLstrip src
  "pragma".data.isPrefixOf txt || "//".data.isPrefixOf txt ||
    "/*".data.isPrefixOf txt || ['\r', '\n'].isPrefixOf txt

/-- `main.py` `_double_curly_wrapped`. -/
def double_curly_wrapped (txt : Str) : Bool :=
  ['\x7b', '\x7b'].isPrefixOf (pyLstrip txt) && ['\x7d', '\x7d'].isSuffixOf (pyRstrip txt)

/-- The text normalisation prelude of `_parse_source_code_object`: strip
the blob, then peel exactly one layer of a double outer brace. -/
def normTxt (blob : Str) : Str :=
  let txt := pyStrip blob
  if double_curly_wrapped txt then pyStrip (dropEdges txt) else txt

/-- Python truthiness of an optional decoded value (`None` is falsy). -/
def optTruthy (x : Option Json) : Bool :=
  match x with
  | some v => v.truthy
  | none => false

/-- Python `a or b` applied to two `_json_or_none` results: a falsy first
decode (`None`, but also a decoded empty object, empty array, empty
string, zero or `false`) falls through to the second. -/
def pyOrJ (a b : Option Json) : Option Json :=
  match a with
  | some v => if v.truthy then some v else b
  | none => b

/-- The final lines of `_parse_source_code_object`: descend into a
`sources` member when the decoded value is an object containing one,
else keep the decoded value. -/
def sourcesRoot (parsed : Json) : Json :=
  match parsed with
  | .obj kvs =>
    match pyLookup kvs "sources".data with
    | some s => s
    | none => .obj kvs
  | v => v

/-- `main.py` `_parse_source_code_object`: normalise the text, take the
first truthy decode of the text or of the text with its outermost
character stripped from each end, fail when the chosen value is missing
or falsy, and resolve the bundle root. -/
def parse_source_code_object (blob : Str) : Except WriteErr Json :=
  let txt := normTxt blob
  match pyOrJ (json_loads txt) (json_loads (dropEdges txt)) with
  | none => .error .bundleDecode
  | some parsed =>
    if parsed.truthy then .ok (sourcesRoot parsed)
    else .error .bundleDecode

/-- Value extraction in the dict branch of `_sources_to_map`:
`meta["content"]` when `meta` is a dict containing `"content"`, else
`meta` itself. -/
def contentOf (meta : Json) : Json :=
  match meta with
  | .obj kvs =>
    match pyLookup kvs "content".data with
    | some c => c
    | none => .obj kvs
  | v => v

/-- Value extraction in the list branch of `_sources_to_map`:
`meta["content"]` when `meta` is a dict (a `KeyError` when the key is
absent), else `meta` itself. -/
def contentOfList (meta : Json) : Except WriteErr Json :=
  match meta with
  | .obj kvs =>
    match pyLookup kvs "content".data with
    | some c => .ok c
    | none => .error .pyError
  | v => .ok v

/-- Python unpacking `name, meta = item` of a decoded JSON item: a
two-element array, a two-character string or a two-member dict unpacks
(a dict iterates over its keys); anything else raises. -/
def unpack2 (item : Json) : Except WriteErr (Json × Json) :=
  match item with
  | .arr [a, b] => .ok (a, b)
  | .str [a, b] => .ok (.str [a], .str [b])
  | .obj [(k1, _), (k2, _)] => .ok (.str k1, .str k2)
  | _ => .error .pyError

/-- Equality of Python dict keys arising from decoded JSON scalars
(arrays and dicts are unhashable and never stored as keys). -/
def scalarKeyEq (a b : Json) : Bool :=
  match a, b with
  | .null, .null => true
  | .bool x, .bool y => x == y
  | .num x, .num y => x == y
  | .str x, .str y => x == y
  | _, _ => false

/-- Whether a decoded JSON value may be a Python dict key. -/
def hashable (a : Json) : Bool :=
  match a with
  | .arr _ => false
  | .obj _ => false
  | _ => true

/-- Python dict insertion keyed by a decoded JSON scalar. -/
def dictInsertJ (d : List (Json × Json)) (k : Json) (v : Json) : List (Json × Json) :=
  match d with
  | [] => [(k, v)]
  | (k', v') :: rest =>
      if scalarKeyEq k' k then (k', v) :: rest else (k', v') :: dictInsertJ rest k v

/-- The `out[name] = ...` loop of the list branch of `_sources_to_map`. -/
def buildListMap (items : List Json) (acc : List (Json × Json)) :
    Except WriteErr (List (Json × Json)) :=
  match items with
  | [] => .ok acc
  | item :: rest =>
    match unpack2 item with
    | .error e => .error e
    | .ok (name, meta) =>
      match contentOfList meta with
      | .error e => .error e
      | .ok v =>
        if hashable name then buildListMap rest (dictInsertJ acc name v)
        else .error .pyError

/-- `main.py` `_sources_to_map`: normalise the bundle root into the
ordered name-to-content mapping (keys are decoded JSON values, as in the
Python dict being built). -/
def sources_to_map (parsed : Json) : Except WriteErr (List (Json × Json)) :=
  match parsed with
  | .obj kvs => .ok (kvs.map fun nm => (Json.str nm.1, contentOf nm.2))
  | .arr items => buildListMap items []
  | _ => .error .bundleShape

/-- File-name resolution in the write loop of `write_sources`:
`name or f"Contract_{i}.sol"`, followed by the path join, which needs
the resulting name to be a string. -/
def resolveName (name : Json) (i : Nat) : Except WriteErr Str :=
  if name.truthy then
    match name with
    | .str s => .ok s
    | _ => .error .pyError
  else .ok ("Contract_".data ++ (Nat.repr i).data ++ ".sol".data)

/-- One file written by `write_sources`: a source file, the ABI side
file (`abi.json`, holding the raw ABI string), or the metadata side file
(`contract_metadata.json`, recorded here as the filtered record that
`json.dumps` serialises). -/
inductive WriteItem where
  | file (name : Str) (content : Json)
  | abi (content : Str)
  | metadata (content : List (Str × Str))
deriving Repr

/-- The write loop `for i, (name, code) in enumerate(map.items(), 1)`. -/
def buildSrcWrites : Nat → List (Json × Json) → Except WriteErr (List WriteItem)
  | _, [] => .ok []
  | i, (name, code) :: rest =>
    match resolveName name i with
    | .error e => .error e
    | .ok n =>
      match buildSrcWrites (i + 1) rest with
      | .error e => .error e
      | .ok tail => .ok (.file n code :: tail)

/-- `main.py` `filter_metadata`. -/
def filter_metadata (metadata : List (Str × α))
    (include_keys exclude_keys : Option (List Str)) : List (Str × α) :=
  match include_keys with
  | some inc => metadata.filter fun kv => decide (kv.1 ∈ inc)
  | none =>
    match exclude_keys with
    | some exc => metadata.filter fun kv => decide (kv.1 ∉ exc)
    | none => metadata

/-- The keyword options threaded through the downloader. -/
structure Opts where
  save_abi : Bool := false
  save_metadata : Bool := false
  include_metadata_keys : Option (List Str) := none
  exclude_metadata_keys : Option (List Str) := none

/-- The full bundle pipeline: `_parse_source_code_object` followed by
`_sources_to_map`. -/
def parse_bundle (blob : Str) : Except WriteErr (List (Json × Json)) :=
  match parse_source_code_object blob with
  | .error e => .error e
  | .ok parsed => sources_to_map parsed

/-- `main.py` `write_sources`, returning the ordered list of files it
writes (all raise sites precede the first write, so an error writes
nothing). -/
def write_sources (result : RawResult) (opts : Opts) : Except WriteErr (List WriteItem) :=
  let src_blob := pyGetD result "SourceCode".data []
  if src_blob = [] then .error .noSource
  else
    let srcItems : Except WriteErr (List WriteItem) :=
      if is_single_file_contract src_blob then
        .ok [WriteItem.file
              (pyOrS (pyLookup result "ContractName".data) "Contract".data ++ ".sol".data)
              (.str src_blob)]
      else
        match parse_bundle src_blob with
        | .error e => .error e
        | .ok m => buildSrcWrites 1 m
    match srcItems with
    | .error e => .error e
    | .ok items =>
      .ok (items ++
        (if opts.save_abi then [WriteItem.abi (pyGetD result "ABI".data [])] else []) ++
        (if opts.save_metadata then
          [WriteItem.metadata
            (filter_metadata result opts.include_metadata_keys opts.exclude_metadata_keys)]
         else []))

/-- Observable events of one recursive download, in order: the
cycle-skip notice, the per-address download banner (immediately followed
by the fetch), each file write (directory, item), and the
proxy-detection notice printed just before recursing. -/
inductive Ev where
  | skipCycle (addr : Str)
  | downloading (addr : Str)
  | write (dir : Str) (item : WriteItem)
  | proxyDetected (impl : Str)
deriving Repr

/-- How one recursive download ended: normally, or by propagating a
fetch or write error. -/
inductive Outcome where
  | ok
  | fetchFailed
  | writeFailed (e : WriteErr)
deriving DecidableEq, Repr

/-- The observed result of a recursive download: the event trace, the
final visited set and the outcome (events already emitted persist when
an error propagates, as writes do in `main.py`). -/
structure DLRes where
  evs : List Ev
  vis : List Str
  out : Outcome
deriving Repr

/-- The all-zero implementation address. -/
def zeroAddr : Str := "0x0000000000000000000000000000000000000000".data

/-- `main.py` `download_contract_source_recursive` over a finite fetch
environment (the proxy graph) given as an association list from
lower-cased address to `RawResult`; `fetch_source` failures are the
`none` entries of that list.  `fuel` bounds the recursion depth and is
proved sufficient below; `none` is fuel exhaustion. -/
def download_contract_source_recursive
    (fuel : Nat) (fetchMap : List (Str × RawResult)) (opts : Opts)
    (address outdir : Str) (visited : List Str) : Option DLRes :=
  match fuel with
  | 0 => none
  | fuel + 1 =>
    let addr := pyLower address
    if addr ∈ visited then some ⟨[.skipCycle addr], visited, .ok⟩
    else
      let visited' := visited ++ [addr]
      match pyLookup fetchMap addr with
      | none => some ⟨[.downloading addr], visited', .fetchFailed⟩
      | some result =>
        match write_sources result opts with
        | .error e => some ⟨[.downloading addr], visited', .writeFailed e⟩
        | .ok ws =>
          let baseDir :=
            pathJoin outdir
              (pyGetD result "ContractName".data "Contract".data ++ ('-' :: pyLower addr))
          let wevs := ws.map (Ev.write baseDir)
          let implementation := pyLower (pyGetD result "Implementation".data [])
          if pyLookup result "Proxy".data = some "1".data ∧
              implementation ≠ [] ∧ implementation ≠ zeroAddr then
            let implDir := pathJoin baseDir ("implementation-".data ++ implementation)
            match download_contract_source_recursive fuel fetchMap opts
                implementation implDir visited' with
            | none => none
            | some res =>
                some ⟨.downloading addr :: (wevs ++ Ev.proxyDetected implementation :: res.evs),
                      res.vis, res.out⟩
          else
            some ⟨.downloading addr :: wevs, visited', .ok⟩

/-- The addresses actually fetched, one per download banner. -/
def downloads (evs : List Ev) : List Str :=
  evs.filterMap fun e =>
    match e with
    | .downloading a => some a
    | _ => none

/-- How many fetchable addresses are not yet visited: the downloader's
termination measure. -/
def countNew (fetchMap : List (Str × RawResult)) (visited : List Str) : Nat :=
  ((fetchMap.map Prod.fst).filter fun k => decide (k ∉ visited)).length

/-- The source files among a list of writes (name and content), in write
order. -/
def filesOf (ws : List WriteItem) : List (Str × Json) :=
  ws.filterMap fun w =>
    match w with
    | .file n c => some (n, c)
    | _ => none

/-! ## Basic lemmas about the string model -/

/-- `lstrip` keeps a string whose first character is not whitespace. -/
theorem pyLstrip_cons_of_not_ws {c : Char} (l : Str) (h : isPyWs c = false) :
    pyLstrip (c :: l) = c :: l := by
  simp [pyLstrip, List.dropWhile_cons, h]

/-- `rstrip` keeps a string whose last character is not whitespace. -/
theorem pyRstrip_concat_of_not_ws {c : Char} (l : Str) (h : isPyWs c = false) :
    pyRstrip (l ++ [c]) = l ++ [c] := by
  simp [pyRstrip, List.dropWhile_cons, h]

/-- `strip` keeps a string with non-whitespace characters at both ends. -/
theorem pyStrip_sandwich {c d : Char} (l : Str)
    (hc : isPyWs c = false) (hd : isPyWs d = false) :
    pyStrip (c :: (l ++ [d])) = c :: (l ++ [d]) := by
  rw [pyStrip, pyLstrip_cons_of_not_ws _ hc]
  have : c :: (l ++ [d]) = (c :: l) ++ [d] := by simp
  rw [this, pyRstrip_concat_of_not_ws _ hd]

/-- Lower-casing never changes emptiness. -/
theorem pyLower_eq_nil_iff (s : Str) : pyLower s = [] ↔ s = [] := by
  simp [pyLower]

/-- A successful association lookup means the key occurs among the keys. -/
theorem pyLookup_mem {α : Type} {m : List (Str × α)} {k : Str} {v : α}
    (h : pyLookup m k = some v) : k ∈ m.map Prod.fst := by
  induction m with
  | nil => simp [pyLookup] at h
  | cons p rest ih =>
    obtain ⟨k', v'⟩ := p
    simp only [pyLookup] at h
    by_cases hk : k' = k
    · subst hk
      exact List.mem_cons_self _ _
    · rw [if_neg hk] at h
      exact List.mem_cons_of_mem _ (ih h)

/-! ## Lemmas about the termination measure -/

/-- Growing the visited set never keeps more keys. -/
theorem countP_notMem_append_le (l visited : List Str) (k : Str) :
    (l.countP fun x => decide (x ∉ visited ++ [k])) ≤
      l.countP fun x => decide (x ∉ visited) := by
  apply List.countP_mono_left
  intro x _ hx
  rw [decide_eq_true_eq] at hx ⊢
  exact fun hm => hx (by simp [hm])

/-- Visiting a fetchable, unvisited address strictly shrinks the
termination measure. -/
theorem countNew_lt {fetchMap : List (Str × RawResult)} {visited : List Str} {k : Str}
    (hk : k ∈ fetchMap.map Prod.fst) (hv : k ∉ visited) :
    countNew fetchMap (visited ++ [k]) < countNew fetchMap visited := by
  unfold countNew
  rw [← List.countP_eq_length_filter, ← List.countP_eq_length_filter]
  obtain ⟨l₁, l₂, hsplit⟩ := List.append_of_mem hk
  rw [hsplit, List.countP_append, List.countP_append, List.countP_cons, List.countP_cons]
  have h1 : (decide (k ∉ visited ++ [k])) = false := by simp
  have h2 : (decide (k ∉ visited)) = true := by simpa using hv
  rw [h1, h2]
  simp only [Bool.false_eq_true, ite_true, ite_false]
  have hle1 := countP_notMem_append_le l₁ visited k
  have hle2 := countP_notMem_append_le l₂ visited k
  omega

/-! ## Lemmas about the recursive downloader -/

/-- Write events are not download banners. -/
theorem downloads_write_map (d : Str) (ws : List WriteItem) :
    downloads (ws.map (Ev.write d)) = [] := by
  induction ws with
  | nil => rfl
  | cons w rest ih => simp [downloads] at ih ⊢

/-- `downloads` distributes over trace concatenation. -/
theorem downloads_append (a b : List Ev) :
    downloads (a ++ b) = downloads a ++ downloads b := by
  simp [downloads]

/-- With fuel exceeding the number of unvisited fetchable addresses, the
downloader never exhausts its fuel. -/
theorem downloadRec_isSome (fuel : Nat) :
    ∀ (fetchMap : List (Str × RawResult)) (opts : Opts) (address outdir : Str)
      (visited : List Str), countNew fetchMap visited < fuel →
      download_contract_source_recursive fuel fetchMap opts address outdir visited ≠ none := by
  induction fuel with
  | zero => exact fun _ _ _ _ _ h => absurd h (by omega)
  | succ fuel ih =>
    intro fetchMap opts address outdir visited h
    simp only [download_contract_source_recursive]
    split
    · simp
    · next hv =>
      split
      · simp
      · next result hf =>
        split
        · simp
        · next ws hw =>
          split
          · have hlt : countNew fetchMap (visited ++ [pyLower address]) < fuel := by
              have := countNew_lt (pyLookup_mem hf) hv
              omega
            split
            · next hnest => exact absurd hnest (ih fetchMap opts _ _ _ hlt)
            · simp
          · simp

/-- A download banner at the head of a trace. -/
theorem downloads_cons_downloading (a : Str) (evs : List Ev) :
    downloads (Ev.downloading a :: evs) = a :: downloads evs := by
  simp [downloads]

/-- A proxy notice contributes no fetched address. -/
theorem downloads_cons_proxy (i : Str) (evs : List Ev) :
    downloads (Ev.proxyDetected i :: evs) = downloads evs := by
  simp [downloads]

/-- No address is ever fetched twice, and no fetched address was already
visited when the call started. -/
theorem downloadRec_nodup (fuel : Nat) :
    ∀ (fetchMap : List (Str × RawResult)) (opts : Opts) (address outdir : Str)
      (visited : List Str) (res : DLRes),
      download_contract_source_recursive fuel fetchMap opts address outdir visited = some res →
      (downloads res.evs).Nodup ∧ ∀ x ∈ downloads res.evs, x ∉ visited := by
  induction fuel with
  | zero =>
    intro fetchMap opts address outdir visited res h
    simp [download_contract_source_recursive] at h
  | succ fuel ih =>
    intro fetchMap opts address outdir visited res h
    simp only [download_contract_source_recursive] at h
    split at h
    · cases h
      simp [downloads]
    · next hv =>
      split at h
      · cases h
        simpa [downloads] using hv
      · next result hf =>
        split at h
        · cases h
          simpa [downloads] using hv
        · next ws hw =>
          split at h
          · split at h
            · simp at h
            · next r hnest =>
              cases h
              obtain ⟨hnd, hni⟩ := ih fetchMap opts _ _ _ r hnest
              have haddr : pyLower address ∉ downloads r.evs := fun hmem =>
                hni _ hmem (by simp)
              rw [downloads_cons_downloading, downloads_append, downloads_write_map,
                downloads_cons_proxy, List.nil_append]
              constructor
              · exact List.nodup_cons.mpr ⟨haddr, hnd⟩
              · intro x hx
                rcases List.mem_cons.mp hx with rfl | hx'
                · exact hv
                · intro hxv
                  exact hni x hx' (by simp [hxv])
          · cases h
            rw [downloads_cons_downloading, downloads_write_map]
            constructor
            · simp
            · intro x hx
              rcases List.mem_cons.mp hx with rfl | hx'
              · exact hv
              · simp at hx'

/-! ## Claim theorems -/

/-- C7: filtering a metadata record with the include-set containing just
key `A` gives the same result as filtering with the exclude-set holding
all the record's other keys; and with neither given, the filter returns
the record unchanged. -/
theorem filter_include_singleton_eq_exclude_others {α : Type}
    (metadata : List (Str × α)) (A : Str) :
    filter_metadata metadata (some [A]) none =
      filter_metadata metadata none
        (some ((metadata.map Prod.fst).filter fun k => decide (k ≠ A))) ∧
    filter_metadata metadata none none = metadata := by
  refine ⟨?_, rfl⟩
  simp only [filter_metadata]
  apply List.filter_congr
  intro x hx
  have hmem : x.1 ∈ metadata.map Prod.fst := List.mem_map_of_mem Prod.fst hx
  apply decide_eq_decide.mpr
  simp only [List.mem_filter, List.mem_singleton]
  constructor
  · rintro rfl hc
    exact absurd rfl (decide_eq_true_eq.mp hc.2)
  · intro hni
    by_contra hne
    exact hni ⟨hmem, decide_eq_true fun he => hne he⟩

/-- C10: when both an include-set and an exclude-set are passed, the
filter does not fail; the include-set silently wins and the exclude-set
is ignored. -/
theorem filter_both_given_include_wins {α : Type}
    (metadata : List (Str × α)) (inc exc : List Str) :
    filter_metadata metadata (some inc) (some exc) =
      filter_metadata metadata (some inc) none := rfl

/-- C8: when the lower-cased address is already in the visited set, the
call returns immediately: no fetch, no writes, the visited set is
unchanged, the cycle-skip notice is the only event, and no error is
raised. -/
theorem visited_address_skips_without_effects
    (fuel : Nat) (fetchMap : List (Str × RawResult)) (opts : Opts)
    (address outdir : Str) (visited : List Str)
    (h : pyLower address ∈ visited) :
    download_contract_source_recursive (fuel + 1) fetchMap opts address outdir visited =
      some ⟨[Ev.skipCycle (pyLower address)], visited, Outcome.ok⟩ := by
  simp [download_contract_source_recursive, h]

/-- C8 witness: a pre-seeded visited set at a concrete address. -/
theorem visited_address_skips_without_effects_witness :
    pyLower "0xAbC".data ∈ ["0xabc".data] ∧
    download_contract_source_recursive 1 [] ⟨true, true, none, none⟩
        "0xAbC".data "out".data ["0xabc".data] =
      some ⟨[Ev.skipCycle "0xabc".data], ["0xabc".data], Outcome.ok⟩ :=
  ⟨by decide,
   visited_address_skips_without_effects 0 [] ⟨true, true, none, none⟩
     "0xAbC".data "out".data ["0xabc".data] (by decide)⟩

/-- C9: a contract whose `SourceCode` field is absent or empty fails
with `NoSourceError` before anything is written, whatever the ABI and
metadata options say. -/
theorem missing_source_fails_before_any_write
    (result : RawResult) (opts : Opts)
    (h : pyLookup result "SourceCode".data = none ∨
         pyLookup result "SourceCode".data = some []) :
    write_sources result opts = .error .noSource := by
  have hblob : pyGetD result "SourceCode".data [] = [] := by
    cases h with
    | inl h => simp [pyGetD, h]
    | inr h => simp [pyGetD, h]
  simp [write_sources, hblob]

/-- C9 witness: an unverified contract record with both side files
requested. -/
theorem missing_source_fails_before_any_write_witness :
    write_sources [("ABI".data, "[]".data)] ⟨true, true, none, none⟩ =
      .error .noSource :=
  missing_source_fails_before_any_write _ _ (Or.inl (by decide))

/-- C1: on every finite proxy graph the recursive download terminates —
fuel exceeding the number of unvisited fetchable addresses is never
exhausted, because a call either returns at once on a visited address or
adds the address to the visited set before recursing — and no address is
ever fetched twice. -/
theorem downloadRecursive_terminates_and_never_refetches
    (fuel : Nat) (fetchMap : List (Str × RawResult)) (opts : Opts)
    (address outdir : Str) (visited : List Str)
    (hfuel : countNew fetchMap visited < fuel) :
    download_contract_source_recursive fuel fetchMap opts address outdir visited ≠ none ∧
    ∀ res,
      download_contract_source_recursive fuel fetchMap opts address outdir visited = some res →
      (downloads res.evs).Nodup ∧ ∀ x ∈ downloads res.evs, x ∉ visited :=
  ⟨downloadRec_isSome fuel fetchMap opts address outdir visited hfuel,
   fun res h => downloadRec_nodup fuel fetchMap opts address outdir visited res h⟩

/-- The two-hop proxy cycle A→B→A: each address is a proxy whose
implementation is the other. -/
def fmAB : List (Str × RawResult) :=
  [("0xa".data,
    [("SourceCode".data, "pragma solidity;".data), ("ContractName".data, "A".data),
     ("Proxy".data, "1".data), ("Implementation".data, "0xB".data)]),
   ("0xb".data,
    [("SourceCode".data, "pragma solidity;".data), ("ContractName".data, "B".data),
     ("Proxy".data, "1".data), ("Implementation".data, "0xA".data)])]

/-- The run of the downloader on the A→B→A cycle: A and B are each
fetched and written once, and B's recursion back into A is skipped. -/
def resAB : DLRes :=
  ⟨[Ev.downloading "0xa".data,
    Ev.write "out/A-0xa".data
      (WriteItem.file "A.sol".data (Json.str "pragma solidity;".data)),
    Ev.proxyDetected "0xb".data,
    Ev.downloading "0xb".data,
    Ev.write "out/A-0xa/implementation-0xb/B-0xb".data
      (WriteItem.file "B.sol".data (Json.str "pragma solidity;".data)),
    Ev.proxyDetected "0xa".data,
    Ev.skipCycle "0xa".data],
   ["0xa".data, "0xb".data], Outcome.ok⟩

/-- C1 witness: the concrete two-hop cycle A→B→A terminates within its
fuel bound, fetches exactly A then B (never twice), and ends with the
cycle-skip of A. -/
theorem downloadRecursive_terminates_and_never_refetches_witness :
    countNew fmAB [] < 3 ∧
    download_contract_source_recursive 3 fmAB ⟨false, false, none, none⟩
        "0xA".data "out".data [] ≠ none ∧
    download_contract_source_recursive 3 fmAB ⟨false, false, none, none⟩
        "0xA".data "out".data [] = some resAB ∧
    (downloads resAB.evs).Nodup ∧
    downloads resAB.evs = ["0xa".data, "0xb".data] :=
  ⟨by decide,
   (downloadRecursive_terminates_and_never_refetches 3 fmAB ⟨false, false, none, none⟩
      "0xA".data "out".data [] (by decide)).1,
   by rfl,
   ((downloadRecursive_terminates_and_never_refetches 3 fmAB ⟨false, false, none, none⟩
      "0xA".data "out".data [] (by decide)).2 resAB (by rfl)).1,
   by rfl⟩

/-- C2: after a successful fetch and write, the downloader recurses into
the implementation — observable as the proxy-detection notice — exactly
when `Proxy` equals `"1"` and `Implementation` is present, non-empty and
not the all-zero address. -/
theorem downloadRecursive_recursion_guard
    (fuel : Nat) (fetchMap : List (Str × RawResult)) (opts : Opts)
    (address outdir : Str) (visited : List Str) (result : RawResult)
    (ws : List WriteItem) (res : DLRes)
    (hv : pyLower address ∉ visited)
    (hf : pyLookup fetchMap (pyLower address) = some result)
    (hw : write_sources result opts = .ok ws)
    (hrun : download_contract_source_recursive (fuel + 1) fetchMap opts address outdir visited
        = some res) :
    (Ev.proxyDetected (pyLower (pyGetD result "Implementation".data [])) ∈ res.evs) ↔
      (pyLookup result "Proxy".data = some "1".data ∧
       ∃ s, pyLookup result "Implementation".data = some s ∧
         s ≠ [] ∧ pyLower s ≠ zeroAddr) := by
  simp only [download_contract_source_recursive] at hrun
  split at hrun
  · next hvis => exact absurd hvis hv
  · split at hrun
    · next hf' => simp [hf] at hf'
    · next result' hf' =>
      rw [hf] at hf'
      cases hf'
      split at hrun
      · next e hw' => simp [hw] at hw'
      · next ws' hw' =>
        rw [hw] at hw'
        cases hw'
        split at hrun
        · next hguard =>
          split at hrun
          · simp at hrun
          · next r hnest =>
            cases hrun
            obtain ⟨hp, h1, h2⟩ := hguard
            refine iff_of_true (by simp) ⟨hp, ?_⟩
            cases hlook : pyLookup result "Implementation".data with
            | none => simp [pyGetD, hlook, pyLower] at h1
            | some s =>
              refine ⟨s, rfl, ?_, ?_⟩
              · intro hs
                exact h1 (by simp [pyGetD, hlook, hs, pyLower])
              · simpa [pyGetD, hlook] using h2
        · next hguard =>
          cases hrun
          refine iff_of_false ?_ ?_
          · intro hmem
            rcases List.mem_cons.mp hmem with hc | hmem'
            · exact Ev.noConfusion hc
            · obtain ⟨w, _, hw2⟩ := List.mem_map.mp hmem'
              exact Ev.noConfusion hw2
          · rintro ⟨hp, s, hlook, hs1, hs2⟩
            apply hguard
            refine ⟨hp, ?_, ?_⟩
            · simp only [pyGetD, hlook, Option.getD_some]
              exact fun h => hs1 ((pyLower_eq_nil_iff s).mp h)
            · simpa [pyGetD, hlook] using hs2

/-- A proxy record whose implementation is the all-zero address. -/
def rP : RawResult :=
  [("SourceCode".data, "pragma solidity;".data), ("ContractName".data, "P".data),
   ("Proxy".data, "1".data), ("Implementation".data, zeroAddr)]

/-- The run of the downloader on the zero-implementation proxy: written
once, no proxy-detection notice, no recursion. -/
def resP : DLRes :=
  ⟨[Ev.downloading "0xp".data,
    Ev.write "out/P-0xp".data
      (WriteItem.file "P.sol".data (Json.str "pragma solidity;".data))],
   ["0xp".data], Outcome.ok⟩

/-- C2 witness: a concrete proxy with `Proxy = "1"` but the all-zero
implementation address; the recursion criterion is decided at this
record. -/
theorem downloadRecursive_recursion_guard_witness :
    (Ev.proxyDetected (pyLower (pyGetD rP "Implementation".data [])) ∈ resP.evs) ↔
      (pyLookup rP "Proxy".data = some "1".data ∧
       ∃ s, pyLookup rP "Implementation".data = some s ∧
         s ≠ [] ∧ pyLower s ≠ zeroAddr) :=
  downloadRecursive_recursion_guard 0 [("0xp".data, rP)] ⟨false, false, none, none⟩
    "0xP".data "out".data [] rP
    [WriteItem.file "P.sol".data (Json.str "pragma solidity;".data)] resP
    (by decide) (by rfl) (by rfl) (by rfl)

/-- `filesOf` distributes over concatenation. -/
theorem filesOf_append (a b : List WriteItem) :
    filesOf (a ++ b) = filesOf a ++ filesOf b := by
  simp [filesOf]

/-- C4: a blob whose left-trimmed text starts with `pragma`, `//`, `/*`
or a CRLF line terminator is written as exactly one source file, named
`<ContractName or "Contract">.sol`, whose content is the blob verbatim,
with no JSON decoding involved. -/
theorem single_file_blob_written_verbatim (result : RawResult) (opts : Opts)
    (h : "pragma".data.isPrefixOf (pyLstrip (pyGetD result "SourceCode".data [])) = true ∨
         "//".data.isPrefixOf (pyLstrip (pyGetD result "SourceCode".data [])) = true ∨
         "/*".data.isPrefixOf (pyLstrip (pyGetD result "SourceCode".data [])) = true ∨
         ['\r', '\n'].isPrefixOf (pyLstrip (pyGetD result "SourceCode".data [])) = true) :
    ∃ ws, write_sources result opts = .ok ws ∧
      filesOf ws =
        [(pyOrS (pyLookup result "ContractName".data) "Contract".data ++ ".sol".data,
          Json.str (pyGetD result "SourceCode".data []))] := by
  have hsingle : is_single_file_contract (pyGetD result "SourceCode".data []) = true := by
    simp only [is_single_file_contract, Bool.or_eq_true]
    tauto
  have hne : pyGetD result "SourceCode".data [] ≠ [] := by
    intro hb
    rw [hb] at h
    exact absurd h (by decide)
  refine ⟨[WriteItem.file
      (pyOrS (pyLookup result "ContractName".data) "Contract".data ++ ".sol".data)
      (.str (pyGetD result "SourceCode".data []))] ++
    (if opts.save_abi then [WriteItem.abi (pyGetD result "ABI".data [])] else []) ++
    (if opts.save_metadata then
      [WriteItem.metadata
        (filter_metadata result opts.include_metadata_keys opts.exclude_metadata_keys)]
     else []), ?_, ?_⟩
  · simp [write_sources, hne, hsingle]
  · cases hsa : opts.save_abi <;> cases hsm : opts.save_metadata <;> simp [filesOf]

/-- A multi-file record exercising the `or`-default of the contract
name: present but empty `ContractName`, single-file comment source. -/
def rComment : RawResult :=
  [("SourceCode".data, "// hi".data), ("ContractName".data, [])]

/-- C4 witness: a comment-opened blob with an empty `ContractName` and
the ABI side file requested still yields exactly `Contract.sol` holding
the blob verbatim. -/
theorem single_file_blob_written_verbatim_witness :
    ∃ ws, write_sources rComment ⟨true, false, none, none⟩ = .ok ws ∧
      filesOf ws =
        [(pyOrS (pyLookup rComment "ContractName".data) "Contract".data ++ ".sol".data,
          Json.str (pyGetD rComment "SourceCode".data []))] :=
  single_file_blob_written_verbatim rComment ⟨true, false, none, none⟩
    (Or.inr (Or.inl (by decide)))

/-- The synthesised placeholder name `Contract_<i>.sol`. -/
def synthName (i : Nat) : Str :=
  "Contract_".data ++ (Nat.repr i).data ++ ".sol".data

/-- The naming policy claimed by the specification for a string-named
entry at 1-based position `i`: an empty name becomes `Contract_<i>.sol`,
a non-empty name is kept unchanged. -/
def specEntryName (s : Str) (i : Nat) : Str :=
  if s = [] then synthName i else s

/-- `resolveName` on a string name agrees with the specification's
naming policy. -/
theorem resolveName_str (s : Str) (i : Nat) :
    resolveName (Json.str s) i = .ok (specEntryName s i) := by
  by_cases hs : s = []
  · subst hs
    simp [resolveName, Json.truthy, specEntryName, synthName]
  · simp [resolveName, Json.truthy, specEntryName, synthName, hs, List.isEmpty_iff]

/-- The write loop, characterised: it writes one file per entry, and a
string-named entry at offset `k` gets the name the specification's
policy assigns at the 1-based position `i + k`. -/
theorem buildSrcWrites_names :
    ∀ (entries : List (Json × Json)) (i : Nat) (items : List WriteItem),
      buildSrcWrites i entries = .ok items →
      (filesOf items).length = entries.length ∧
      ∀ k s code, entries[k]? = some (Json.str s, code) →
        (filesOf items)[k]? = some (specEntryName s (i + k), code) := by
  intro entries
  induction entries with
  | nil =>
    intro i items h
    simp only [buildSrcWrites] at h
    cases h
    simp [filesOf]
  | cons p rest ih =>
    intro i items h
    obtain ⟨name, code⟩ := p
    simp only [buildSrcWrites] at h
    split at h
    · simp at h
    · next n hres =>
      split at h
      · simp at h
      · next tail htail =>
        cases h
        obtain ⟨hlen, hget⟩ := ih (i + 1) tail htail
        have hfiles : filesOf (WriteItem.file n code :: tail) = (n, code) :: filesOf tail := by
          simp [filesOf]
        constructor
        · simp [hfiles, hlen]
        · intro k s code' hk
          cases k with
          | zero =>
            simp only [List.getElem?_cons_zero, Option.some.injEq, Prod.mk.injEq] at hk
            obtain ⟨hname, hcode⟩ := hk
            subst hcode
            rw [hname] at hres
            rw [resolveName_str] at hres
            cases hres
            simp [hfiles]
          | succ k =>
            simp only [List.getElem?_cons_succ] at hk
            have := hget k s code' hk
            rw [hfiles]
            simpa [Nat.add_assoc, Nat.add_comm 1 k] using this

/-- C5: in a decoded multi-file bundle, the entry at 1-based position
`i` is written under `Contract_<i>.sol` when its name is empty, and
under its own name otherwise. -/
theorem empty_names_replaced_by_position (result : RawResult) (opts : Opts)
    (entries : List (Json × Json)) (ws : List WriteItem)
    (hns : is_single_file_contract (pyGetD result "SourceCode".data []) = false)
    (hparse : parse_bundle (pyGetD result "SourceCode".data []) = .ok entries)
    (hw : write_sources result opts = .ok ws) :
    (filesOf ws).length = entries.length ∧
    ∀ k s code, entries[k]? = some (Json.str s, code) →
      (filesOf ws)[k]? = some (specEntryName s (k + 1), code) := by
  have hne : pyGetD result "SourceCode".data [] ≠ [] := by
    intro hb
    simp [write_sources, hb] at hw
  simp only [write_sources, if_neg hne, hns, Bool.false_eq_true, if_false, hparse] at hw
  split at hw
  · simp at hw
  · next items hb =>
    cases hw
    have hfe : filesOf (items ++
        (if opts.save_abi then [WriteItem.abi (pyGetD result "ABI".data [])] else []) ++
        (if opts.save_metadata then
          [WriteItem.metadata
            (filter_metadata result opts.include_metadata_keys opts.exclude_metadata_keys)]
         else [])) = filesOf items := by
      rw [filesOf_append, filesOf_append]
      cases opts.save_abi <;> cases opts.save_metadata <;> simp [filesOf]
    obtain ⟨hlen, hget⟩ := buildSrcWrites_names entries 1 items hb
    rw [hfe]
    refine ⟨hlen, ?_⟩
    intro k s code hk
    simpa [Nat.add_comm 1 k] using hget k s code hk

/-- A record whose source is a two-file JSON bundle with one empty file
name. -/
def rBundle : RawResult :=
  [("SourceCode".data, "\x7b\"\":\"a\",\"B.sol\":\"b\"\x7d".data)]

/-- The bundle entries decoded from `rBundle`. -/
def entriesB : List (Json × Json) :=
  [(Json.str [], Json.str "a".data), (Json.str "B.sol".data, Json.str "b".data)]

/-- C5 witness: the empty-named first entry becomes `Contract_1.sol`,
the named second entry keeps `B.sol`. -/
theorem empty_names_replaced_by_position_witness :
    is_single_file_contract (pyGetD rBundle "SourceCode".data []) = false ∧
    parse_bundle (pyGetD rBundle "SourceCode".data []) = .ok entriesB ∧
    write_sources rBundle ⟨false, false, none, none⟩ =
      .ok [WriteItem.file "Contract_1.sol".data (Json.str "a".data),
           WriteItem.file "B.sol".data (Json.str "b".data)] ∧
    specEntryName [] 1 = "Contract_1.sol".data ∧
    specEntryName "B.sol".data 2 = "B.sol".data ∧
    (filesOf [WriteItem.file "Contract_1.sol".data (Json.str "a".data),
              WriteItem.file "B.sol".data (Json.str "b".data)])[0]? =
      some (specEntryName [] (0 + 1), Json.str "a".data) ∧
    (filesOf [WriteItem.file "Contract_1.sol".data (Json.str "a".data),
              WriteItem.file "B.sol".data (Json.str "b".data)])[1]? =
      some (specEntryName "B.sol".data (1 + 1), Json.str "b".data) :=
  ⟨by rfl, by rfl, by rfl, by rfl, by rfl,
   (empty_names_replaced_by_position rBundle ⟨false, false, none, none⟩ entriesB
      [WriteItem.file "Contract_1.sol".data (Json.str "a".data),
       WriteItem.file "B.sol".data (Json.str "b".data)]
      (by rfl) (by rfl) (by rfl)).2 0 [] (Json.str "a".data) (by rfl),
   (empty_names_replaced_by_position rBundle ⟨false, false, none, none⟩ entriesB
      [WriteItem.file "Contract_1.sol".data (Json.str "a".data),
       WriteItem.file "B.sol".data (Json.str "b".data)]
      (by rfl) (by rfl) (by rfl)).2 1 "B.sol".data (Json.str "b".data) (by rfl)⟩

/-- C3 counterexample: on the blob `"\x7b\x7d"` (an empty JSON object)
the first decode attempt succeeds, yet the parser still fails with the
bundle-decode error, because the decoded value is falsy. -/
theorem decode_succeeds_yet_bundleDecode_error :
    (json_loads (normTxt "\x7b\x7d".data)).isSome = true ∧
    parse_source_code_object "\x7b\x7d".data = .error WriteErr.bundleDecode :=
  ⟨by rfl, by rfl⟩

/-- C3 amended: the parser fails with the bundle-decode error exactly
when neither decode attempt — the strict decode of the (possibly
unwrapped) text, nor the decode of the text with its outermost character
stripped from each end — yields a truthy value; a decode that succeeds
with a falsy value (empty object, empty array, empty string, zero,
`false`, `null`) counts as a failure. -/
theorem bundleDecode_error_iff_no_truthy_decode (blob : Str) :
    (parse_source_code_object blob = .error WriteErr.bundleDecode) ↔
      (optTruthy (json_loads (normTxt blob)) = false ∧
       optTruthy (json_loads (dropEdges (normTxt blob))) = false) := by
  simp only [parse_source_code_object]
  rcases h1 : json_loads (normTxt blob) with _ | v1
  · rcases h2 : json_loads (dropEdges (normTxt blob)) with _ | v2
    · simp [pyOrJ, optTruthy]
    · simp only [pyOrJ, optTruthy]
      cases ht : v2.truthy <;> simp [ht]
  · simp only [pyOrJ, optTruthy]
    cases ht1 : v1.truthy
    · rcases h2 : json_loads (dropEdges (normTxt blob)) with _ | v2
      · simp [ht1]
      · simp only [ht1, Bool.false_eq_true, if_false]
        cases ht2 : v2.truthy <;> simp [ht2]
    · simp [ht1]

/-- No JSON document starts with two opening braces: strict decoding of
any such text fails. -/
theorem json_loads_double_brace (r : Str) :
    json_loads ('\x7b' :: '\x7b' :: r) = none := rfl

/-- Normalisation strips exactly one layer off a double-brace-wrapped
text whose inner text is brace-delimited. -/
theorem normTxt_of_wrapped (u : Str) :
    normTxt ('\x7b' :: (('\x7b' :: (u ++ ['\x7d'])) ++ ['\x7d'])) =
      '\x7b' :: (u ++ ['\x7d']) := by
  have hb : isPyWs '\x7b' = false := by decide
  have hd : isPyWs '\x7d' = false := by decide
  have hdcw : double_curly_wrapped ('\x7b' :: (('\x7b' :: (u ++ ['\x7d'])) ++ ['\x7d'])) =
      true := by
    simp only [double_curly_wrapped]
    rw [pyLstrip_cons_of_not_ws _ hb]
    rw [Bool.and_eq_true]
    refine ⟨?_, ?_⟩
    · simp [List.isPrefixOf]
    · rw [show ('\x7b' :: (('\x7b' :: (u ++ ['\x7d'])) ++ ['\x7d']) : Str) =
          ('\x7b' :: ('\x7b' :: (u ++ ['\x7d']))) ++ ['\x7d'] from by simp,
        pyRstrip_concat_of_not_ws _ hd]
      rw [show (('\x7b' :: ('\x7b' :: (u ++ ['\x7d']))) ++ ['\x7d'] : Str) =
          ('\x7b' :: ('\x7b' :: u)) ++ ['\x7d', '\x7d'] from by simp]
      simp [List.isSuffixOf, List.isPrefixOf, List.reverse_append]
  simp only [normTxt]
  rw [pyStrip_sandwich _ hb hd, hdcw]
  simp only [if_true, ite_true, dropEdges]
  rw [show (('\x7b' :: (('\x7b' :: (u ++ ['\x7d'])) ++ ['\x7d']) : Str).drop 1) =
      ('\x7b' :: (u ++ ['\x7d'])) ++ ['\x7d'] from rfl]
  rw [List.dropLast_concat]
  exact pyStrip_sandwich _ hb hd

/-- Normalisation keeps a brace-delimited text that is not itself
double-brace-wrapped. -/
theorem normTxt_of_plain (u : Str) (hu : ∀ u', u ≠ '\x7b' :: u') :
    normTxt ('\x7b' :: (u ++ ['\x7d'])) = '\x7b' :: (u ++ ['\x7d']) := by
  have hb : isPyWs '\x7b' = false := by decide
  have hd : isPyWs '\x7d' = false := by decide
  have hdcw : double_curly_wrapped ('\x7b' :: (u ++ ['\x7d'])) = false := by
    simp only [double_curly_wrapped]
    rw [pyLstrip_cons_of_not_ws _ hb]
    have hpre : (['\x7b', '\x7b'].isPrefixOf ('\x7b' :: (u ++ ['\x7d']))) = false := by
      cases u with
      | nil => decide
      | cons v u' =>
        have hv : ('\x7b' == v) = false := by
          cases hbeq : '\x7b' == v with
          | true => exact absurd (hu u' (by rw [eq_of_beq hbeq])) (by simp)
          | false => rfl
        simp [List.isPrefixOf, hv]
    rw [hpre]
    simp
  simp only [normTxt]
  rw [pyStrip_sandwich _ hb hd, hdcw]
  simp

/-- C6: a double-brace-wrapped JSON text parses to the same source
bundle as its unwrapped equivalent — exactly one layer of outer braces
is peeled before decoding. -/
theorem double_wrapped_decodes_like_unwrapped (u : Str)
    (h : (json_loads ('\x7b' :: (u ++ ['\x7d']))).isSome = true) :
    parse_bundle ('\x7b' :: (('\x7b' :: (u ++ ['\x7d'])) ++ ['\x7d'])) =
      parse_bundle ('\x7b' :: (u ++ ['\x7d'])) := by
  have hu : ∀ u', u ≠ '\x7b' :: u' := by
    intro u' hequ
    rw [hequ] at h
    simp only [List.cons_append] at h
    rw [json_loads_double_brace] at h
    simp at h
  have hn : normTxt ('\x7b' :: (('\x7b' :: (u ++ ['\x7d'])) ++ ['\x7d'])) =
      normTxt ('\x7b' :: (u ++ ['\x7d'])) := by
    rw [normTxt_of_wrapped, normTxt_of_plain u hu]
  simp only [parse_bundle, parse_source_code_object, hn]

/-- C6 witness: the wrapped bundle text decodes to the same (successful)
bundle as its unwrapped form. -/
theorem double_wrapped_decodes_like_unwrapped_witness :
    (json_loads ('\x7b' :: ("\"A.sol\": \"x\"".data ++ ['\x7d']))).isSome = true ∧
    parse_bundle ('\x7b' :: (('\x7b' :: ("\"A.sol\": \"x\"".data ++ ['\x7d'])) ++ ['\x7d'])) =
      parse_bundle ('\x7b' :: ("\"A.sol\": \"x\"".data ++ ['\x7d'])) ∧
    parse_bundle ('\x7b' :: ("\"A.sol\": \"x\"".data ++ ['\x7d'])) =
      .ok [(Json.str "A.sol".data, Json.str "x".data)] :=
  ⟨by rfl, double_wrapped_decodes_like_unwrapped _ (by rfl), by rfl⟩
